import Mathlib

/-!
Verification development for the VideoMergerPro engine
(src/dev/video_merger_robust.py and src/dev/worker_thread.py),
shallowly embedded in Lean.

Modelling conventions:
* File paths are `String`s; durations (seconds) are exact rationals `ℚ`
  (the Python code computes with floats; we use the exact-real reading of
  the same expressions). `max_clip_count` is an `Int`, like a Python int.
* The duration cache `cached_durations` is modelled as a total function
  `String → ℚ`, standing for `cached_durations.get(file, 0)`: with a
  supplied cache the lookup in `calculate_batches` never raises, so the
  `except` branch of the Python loop is unreachable and is not modelled.
* Progress values are the integer percentages handed to callbacks.
-/

namespace VideoMergerPro

/-- The body of the `for file in video_files` loop of
`RobustVideoMerger.calculate_batches` (video_merger_robust.py lines 83-125),
with the mutable state (`batches`, `current_batch`, `current_duration`)
passed explicitly.  The three guards mirror lines 94-117 in order:
standalone isolation, clip-count overflow, duration overflow, else append.
The trailing `if current_batch = []` on the nil case mirrors lines 124-125
(append the last open batch if non-empty). -/
def calcLoop (cached_durations : String → ℚ) (max_duration_sec : ℚ)
    (max_clip_count : Int) (standalone_threshold_sec : ℚ) :
    List String → List (List String) → List String → ℚ → List (List String)
  | [], batches, current_batch, _ =>
      if current_batch = [] then batches else batches ++ [current_batch]
  | file :: rest, batches, current_batch, current_duration =>
      let duration := cached_durations file
      if 0 < standalone_threshold_sec ∧ standalone_threshold_sec ≤ duration then
        calcLoop cached_durations max_duration_sec max_clip_count standalone_threshold_sec rest
          ((if current_batch = [] then batches else batches ++ [current_batch]) ++ [[file]])
          [] 0
      else if 0 < max_clip_count ∧ max_clip_count ≤ (current_batch.length : Int) then
        calcLoop cached_durations max_duration_sec max_clip_count standalone_threshold_sec rest
          (batches ++ [current_batch]) [file] duration
      else if 0 < max_duration_sec ∧ current_batch ≠ [] ∧
          max_duration_sec < current_duration + duration then
        calcLoop cached_durations max_duration_sec max_clip_count standalone_threshold_sec rest
          (batches ++ [current_batch]) [file] duration
      else
        calcLoop cached_durations max_duration_sec max_clip_count standalone_threshold_sec rest
          batches (current_batch ++ [file]) (current_duration + duration)

/-- One slicing step of the `for i in range(0, len(video_files), max_clip_count)`
loop of `calculate_batches_by_count` (video_merger_robust.py lines 139-142):
each iteration takes the slice `video_files[i : i + k]` and moves `k` files
forward.  `fuel` only bounds the recursion depth; it is initialised to the
list length, which the loop never exceeds (each step consumes at least one
element when `1 ≤ k`). -/
def chunkGo (k : ℕ) : ℕ → List String → List (List String)
  | _, [] => []
  | 0, l => [l]
  | fuel + 1, x :: xs => ((x :: xs).take k) :: chunkGo k fuel (List.drop (k - 1) xs)

/-- `video_files` sliced into consecutive chunks of `k` files, the last chunk
possibly shorter: the loop of `calculate_batches_by_count`. -/
def chunkBy (k : ℕ) (l : List String) : List (List String) := chunkGo k l.length l

/-- `RobustVideoMerger.calculate_batches_by_count`
(video_merger_robust.py lines 129-142). -/
def calculate_batches_by_count (video_files : List String) (max_clip_count : Int) :
    List (List String) :=
  if video_files = [] then []
  else if max_clip_count ≤ 0 then [video_files]
  else chunkBy max_clip_count.toNat video_files

/-- `RobustVideoMerger.calculate_batches` (video_merger_robust.py lines 57-127)
with a supplied duration cache: empty guard (line 73), the count-only fast
path (lines 76-77), otherwise the general accumulating loop. -/
def calculate_batches (video_files : List String) (max_duration_sec : ℚ)
    (max_clip_count : Int) (cached_durations : String → ℚ)
    (standalone_threshold_sec : ℚ) : List (List String) :=
  if video_files = [] then []
  else if 0 < max_clip_count ∧ standalone_threshold_sec ≤ 0 then
    calculate_batches_by_count video_files max_clip_count
  else
    calcLoop cached_durations max_duration_sec max_clip_count standalone_threshold_sec
      video_files [] [] 0

/-- Total duration of a batch: sum of the looked-up durations of its members
(the derived attribute of a Batch in the data model). -/
def batchDuration (cached_durations : String → ℚ) (batch : List String) : ℚ :=
  (batch.map cached_durations).sum

/-- Loop invariant of `calcLoop`: the flattened output is the flattened
accumulator, then the open batch, then the files not yet processed. -/
theorem calcLoop_flatten (cd : String → ℚ) (md : ℚ) (mc : Int) (st : ℚ) :
    ∀ (files : List String) (batches : List (List String)) (cur : List String) (d : ℚ),
      (calcLoop cd md mc st files batches cur d).flatten = batches.flatten ++ cur ++ files := by
  intro files
  induction files with
  | nil =>
      intro batches cur d
      by_cases h : cur = [] <;> simp [calcLoop, h]
  | cons f rest ih =>
      intro batches cur d
      simp only [calcLoop]
      split_ifs <;> rw [ih] <;> simp_all

/-- Loop invariant of `calcLoop` for standalone isolation: if every already
closed batch isolates its long members and the open batch holds no long
member, every output batch holding a long member is a singleton. -/
theorem calcLoop_standalone (cd : String → ℚ) (md : ℚ) (mc : Int) (st : ℚ) (hst : 0 < st) :
    ∀ (files : List String) (batches : List (List String)) (cur : List String) (d : ℚ),
      (∀ B ∈ batches, ∀ f ∈ B, st ≤ cd f → B.length = 1) →
      (∀ g ∈ cur, cd g < st) →
      ∀ B ∈ calcLoop cd md mc st files batches cur d, ∀ f ∈ B, st ≤ cd f → B.length = 1 := by
  intro files
  induction files with
  | nil =>
      intro batches cur d hb hc B hB f hf hd
      by_cases h : cur = []
      · simp only [calcLoop, if_pos h] at hB
        exact hb B hB f hf hd
      · simp only [calcLoop, if_neg h, List.mem_append, List.mem_singleton] at hB
        rcases hB with hB | rfl
        · exact hb B hB f hf hd
        · exact absurd hd (not_le.mpr (hc f hf))
  | cons x rest ih =>
      intro batches cur d hb hc B hB f hf hd
      simp only [calcLoop] at hB
      by_cases h1 : 0 < st ∧ st ≤ cd x
      · rw [if_pos h1] at hB
        refine ih _ [] 0 ?_ (by simp) B hB f hf hd
        intro C hC g hg hgd
        rcases List.mem_append.mp hC with hC | hC
        · by_cases h : cur = []
          · rw [if_pos h] at hC; exact hb C hC g hg hgd
          · rw [if_neg h] at hC
            rcases List.mem_append.mp hC with hC | hC
            · exact hb C hC g hg hgd
            · rw [List.mem_singleton] at hC; subst hC
              exact absurd hgd (not_le.mpr (hc g hg))
        · rw [List.mem_singleton] at hC; subst hC
          simp only [List.mem_singleton] at hg; subst hg; rfl
      · rw [if_neg h1] at hB
        have hx : cd x < st := by
          rcases not_and_or.mp h1 with h | h
          · exact absurd hst h
          · exact not_le.mp h
        have hclose : ∀ C ∈ batches ++ [cur], ∀ g ∈ C, st ≤ cd g → C.length = 1 := by
          intro C hC g hg hgd
          rcases List.mem_append.mp hC with hC | hC
          · exact hb C hC g hg hgd
          · rw [List.mem_singleton] at hC; subst hC
            exact absurd hgd (not_le.mpr (hc g hg))
        by_cases h2 : 0 < mc ∧ mc ≤ (cur.length : Int)
        · rw [if_pos h2] at hB
          refine ih _ [x] (cd x) hclose ?_ B hB f hf hd
          intro g hg; rw [List.mem_singleton] at hg; subst hg; exact hx
        · rw [if_neg h2] at hB
          by_cases h3 : 0 < md ∧ cur ≠ [] ∧ md < d + cd x
          · rw [if_pos h3] at hB
            refine ih _ [x] (cd x) hclose ?_ B hB f hf hd
            intro g hg; rw [List.mem_singleton] at hg; subst hg; exact hx
          · rw [if_neg h3] at hB
            refine ih _ (cur ++ [x]) (d + cd x) hb ?_ B hB f hf hd
            intro g hg
            rcases List.mem_append.mp hg with hg | hg
            · exact hc g hg
            · rw [List.mem_singleton] at hg; subst hg; exact hx

/-- Loop invariant of `calcLoop` for the duration budget: with a positive
`max_duration_sec`, the accumulator mirrors the open batch's total duration,
and every closed batch of two or more members respects the budget. -/
theorem calcLoop_durationBound (cd : String → ℚ) (md : ℚ) (mc : Int) (st : ℚ) (hmd : 0 < md) :
    ∀ (files : List String) (batches : List (List String)) (cur : List String) (d : ℚ),
      (∀ B ∈ batches, 2 ≤ B.length → batchDuration cd B ≤ md) →
      d = batchDuration cd cur →
      (2 ≤ cur.length → d ≤ md) →
      ∀ B ∈ calcLoop cd md mc st files batches cur d, 2 ≤ B.length → batchDuration cd B ≤ md := by
  intro files
  induction files with
  | nil =>
      intro batches cur d hb hd hcur B hB h2
      by_cases h : cur = []
      · simp only [calcLoop, if_pos h] at hB
        exact hb B hB h2
      · simp only [calcLoop, if_neg h, List.mem_append, List.mem_singleton] at hB
        rcases hB with hB | rfl
        · exact hb B hB h2
        · exact hd ▸ hcur h2
  | cons x rest ih =>
      intro batches cur d hb hd hcur B hB h2
      simp only [calcLoop] at hB
      have hclose : ∀ C ∈ batches ++ [cur], 2 ≤ C.length → batchDuration cd C ≤ md := by
        intro C hC hC2
        rcases List.mem_append.mp hC with hC | hC
        · exact hb C hC hC2
        · rw [List.mem_singleton] at hC; subst hC
          exact hd ▸ hcur hC2
      by_cases h1 : 0 < st ∧ st ≤ cd x
      · rw [if_pos h1] at hB
        refine ih _ [] 0 ?_ (by simp [batchDuration]) (by simp) B hB h2
        intro C hC hC2
        rcases List.mem_append.mp hC with hC | hC
        · by_cases h : cur = []
          · rw [if_pos h] at hC; exact hb C hC hC2
          · rw [if_neg h] at hC
            rcases List.mem_append.mp hC with hC | hC
            · exact hb C hC hC2
            · rw [List.mem_singleton] at hC; subst hC
              exact hd ▸ hcur hC2
        · rw [List.mem_singleton] at hC; subst hC
          simp at hC2
      · rw [if_neg h1] at hB
        by_cases h2' : 0 < mc ∧ mc ≤ (cur.length : Int)
        · rw [if_pos h2'] at hB
          refine ih _ [x] (cd x) hclose (by simp [batchDuration]) (by simp) B hB h2
        · rw [if_neg h2'] at hB
          by_cases h3 : 0 < md ∧ cur ≠ [] ∧ md < d + cd x
          · rw [if_pos h3] at hB
            refine ih _ [x] (cd x) hclose (by simp [batchDuration]) (by simp) B hB h2
          · rw [if_neg h3] at hB
            refine ih _ (cur ++ [x]) (d + cd x) hb ?_ ?_ B hB h2
            · simp [batchDuration, hd]
            · intro hlen
              by_cases h : cur = []
              · subst h; simp at hlen
              · rcases not_and_or.mp h3 with h' | h'
                · exact absurd hmd h'
                · rcases not_and_or.mp h' with h'' | h''
                  · exact absurd h h''
                  · exact not_lt.mp h''

/-- `chunkGo` of the empty list is empty, whatever the fuel. -/
theorem chunkGo_nil (k fuel : ℕ) : chunkGo k fuel [] = [] := by
  cases fuel <;> rfl

/-- `chunkGo` of a non-empty list is non-empty. -/
theorem chunkGo_ne_nil (k fuel : ℕ) (l : List String) (hl : l ≠ []) :
    chunkGo k fuel l ≠ [] := by
  cases l with
  | nil => exact absurd rfl hl
  | cons x xs => cases fuel <;> simp [chunkGo]

/-- With `1 ≤ k`, the first chunk plus the advanced remainder restore the list. -/
theorem take_cons_drop (k : ℕ) (hk : 1 ≤ k) (x : String) (xs : List String) :
    (x :: xs).take k ++ List.drop (k - 1) xs = x :: xs := by
  cases k with
  | zero => omega
  | succ m =>
      simp only [List.take_succ_cons, Nat.add_sub_cancel, List.cons_append]
      rw [List.take_append_drop]

/-- Slicing then concatenating restores the original list. -/
theorem chunkGo_flatten (k : ℕ) (hk : 1 ≤ k) :
    ∀ (fuel : ℕ) (l : List String), l.length ≤ fuel → (chunkGo k fuel l).flatten = l := by
  intro fuel
  induction fuel with
  | zero =>
      intro l hl
      have h : l = [] := List.eq_nil_of_length_eq_zero (Nat.le_zero.mp hl)
      subst h; rfl
  | succ n ih =>
      intro l hl
      cases l with
      | nil => rfl
      | cons x xs =>
          simp only [chunkGo, List.flatten_cons]
          rw [ih]
          · exact take_cons_drop k hk x xs
          · have h1 := List.length_drop (k - 1) xs
            simp only [List.length_cons] at hl
            omega

/-- Every chunk produced by `chunkGo` has between 1 and `k` members. -/
theorem chunkGo_mem_length (k : ℕ) (hk : 1 ≤ k) :
    ∀ (fuel : ℕ) (l : List String), l.length ≤ fuel →
      ∀ B ∈ chunkGo k fuel l, 1 ≤ B.length ∧ B.length ≤ k := by
  intro fuel
  induction fuel with
  | zero =>
      intro l hl B hB
      have h : l = [] := List.eq_nil_of_length_eq_zero (Nat.le_zero.mp hl)
      subst h; simp [chunkGo_nil] at hB
  | succ n ih =>
      intro l hl B hB
      cases l with
      | nil => simp [chunkGo_nil] at hB
      | cons x xs =>
          simp only [chunkGo, List.mem_cons] at hB
          rcases hB with rfl | hB
          · constructor
            · simp [List.length_take]
              omega
            · simp [List.length_take]
          · refine ih _ ?_ B hB
            have h1 := List.length_drop (k - 1) xs
            simp only [List.length_cons] at hl
            omega

/-- Every chunk but possibly the last has exactly `k` members. -/
theorem chunkGo_dropLast_length (k : ℕ) (hk : 1 ≤ k) :
    ∀ (fuel : ℕ) (l : List String), l.length ≤ fuel →
      ∀ B ∈ (chunkGo k fuel l).dropLast, B.length = k := by
  intro fuel
  induction fuel with
  | zero =>
      intro l hl B hB
      have h : l = [] := List.eq_nil_of_length_eq_zero (Nat.le_zero.mp hl)
      subst h; simp [chunkGo_nil] at hB
  | succ n ih =>
      intro l hl B hB
      cases l with
      | nil => simp [chunkGo_nil] at hB
      | cons x xs =>
          simp only [chunkGo] at hB
          by_cases hrest : List.drop (k - 1) xs = []
          · rw [hrest, chunkGo_nil] at hB
            simp at hB
          · rw [List.dropLast_cons_of_ne_nil (chunkGo_ne_nil k n _ hrest)] at hB
            simp only [List.mem_cons] at hB
            have hlen : k ≤ xs.length := by
              have h1 := List.length_drop (k - 1) xs
              by_contra hcon
              exact hrest (List.eq_nil_of_length_eq_zero (by omega))
            rcases hB with rfl | hB
            · simp [List.length_take]
              omega
            · refine ih _ ?_ B hB
              have h1 := List.length_drop (k - 1) xs
              simp only [List.length_cons] at hl
              omega

/-- C1: for every non-empty input file list and every configuration (any
`max_duration_sec`, `max_clip_count`, `standalone_threshold_sec`, and supplied
duration cache), concatenating in order the batches returned by
`calculate_batches` yields exactly the original input list. -/
theorem partition_law (video_files : List String) (max_duration_sec : ℚ)
    (max_clip_count : Int) (cached_durations : String → ℚ)
    (standalone_threshold_sec : ℚ) (hvf : video_files ≠ []) :
    (calculate_batches video_files max_duration_sec max_clip_count cached_durations
      standalone_threshold_sec).flatten = video_files := by
  unfold calculate_batches
  rw [if_neg hvf]
  by_cases hfast : 0 < max_clip_count ∧ standalone_threshold_sec ≤ 0
  · rw [if_pos hfast]
    unfold calculate_batches_by_count
    rw [if_neg hvf, if_neg (not_le.mpr hfast.1)]
    exact chunkGo_flatten _ (by omega) _ _ le_rfl
  · rw [if_neg hfast, calcLoop_flatten]
    simp

/-- Witness for C1 on a concrete four-file input. -/
theorem partition_law_witness :
    (calculate_batches ["A", "B", "C", "D"] 600 0 (fun _ => 100) 0).flatten
      = ["A", "B", "C", "D"] :=
  partition_law ["A", "B", "C", "D"] 600 0 (fun _ => 100) 0 (by decide)

/-- C2: for every input list, every configuration with
`standalone_threshold_sec > 0`, and every file whose looked-up duration is at
least `standalone_threshold_sec`, the batch containing that file in
`calculate_batches`' output has exactly one member. -/
theorem standalone_isolation (video_files : List String) (max_duration_sec : ℚ)
    (max_clip_count : Int) (cached_durations : String → ℚ)
    (standalone_threshold_sec : ℚ) (hst : 0 < standalone_threshold_sec)
    (B : List String)
    (hB : B ∈ calculate_batches video_files max_duration_sec max_clip_count
      cached_durations standalone_threshold_sec)
    (f : String) (hf : f ∈ B)
    (hd : standalone_threshold_sec ≤ cached_durations f) : B.length = 1 := by
  unfold calculate_batches at hB
  by_cases hvf : video_files = []
  · rw [if_pos hvf] at hB; simp at hB
  · rw [if_neg hvf, if_neg (by rintro ⟨-, h2⟩; linarith)] at hB
    exact calcLoop_standalone cached_durations max_duration_sec max_clip_count
      standalone_threshold_sec hst video_files [] [] 0 (by simp) (by simp) B hB f hf hd

/-- Witness for C2: with threshold 60 and durations A=30, B=90, C=20, the
batch holding the long file B is a singleton. -/
theorem standalone_isolation_witness :
    (["B"] : List String).length = 1 :=
  standalone_isolation ["A", "B", "C"] 0 0
    (fun s => if s = "B" then 90 else 30) 60 (by norm_num) ["B"]
    (by simp [calculate_batches, calcLoop]; norm_num) "B" (by decide) (by norm_num)

/-- C3 counterexample: with `max_clip_count = 2 > 0` and standalone disabled,
`calculate_batches` takes the count-only fast path and ignores
`max_duration_sec = 50` entirely, returning a two-member batch whose total
duration 200 exceeds the budget. -/
theorem duration_bound_counterexample :
    ["a", "b"] ∈ calculate_batches ["a", "b"] 50 2 (fun _ => 100) 0 ∧
    2 ≤ (["a", "b"] : List String).length ∧
    ¬ batchDuration (fun _ => 100) ["a", "b"] ≤ 50 := by
  refine ⟨?_, by decide, ?_⟩
  · show ["a", "b"] ∈ [["a", "b"]]
    simp
  · simp [batchDuration]
    norm_num

/-- C3 as amended: for every input list with a supplied duration cache and
every configuration with `max_duration_sec > 0`, PROVIDED the count-only fast
path is not taken (that is, not both `max_clip_count > 0` and
`standalone_threshold_sec ≤ 0`), every batch returned by `calculate_batches`
that contains two or more files has total member duration at most
`max_duration_sec`. -/
theorem duration_bound_general (video_files : List String) (max_duration_sec : ℚ)
    (max_clip_count : Int) (cached_durations : String → ℚ)
    (standalone_threshold_sec : ℚ) (hmd : 0 < max_duration_sec)
    (hpath : ¬ (0 < max_clip_count ∧ standalone_threshold_sec ≤ 0))
    (B : List String)
    (hB : B ∈ calculate_batches video_files max_duration_sec max_clip_count
      cached_durations standalone_threshold_sec)
    (h2 : 2 ≤ B.length) : batchDuration cached_durations B ≤ max_duration_sec := by
  unfold calculate_batches at hB
  by_cases hvf : video_files = []
  · rw [if_pos hvf] at hB; simp at hB
  · rw [if_neg hvf, if_neg hpath] at hB
    exact calcLoop_durationBound cached_durations max_duration_sec max_clip_count
      standalone_threshold_sec hmd video_files [] [] 0 (by simp)
      (by simp [batchDuration]) (by simp) B hB h2

/-- Witness for the amended C3 on the spec's scenario 7 (durations 300, 200,
500, 100 and budget 600): the two-member batch [A, B] respects the budget. -/
theorem duration_bound_general_witness :
    batchDuration
      (fun s => if s = "A" then 300 else if s = "B" then 200 else
        if s = "C" then 500 else 100) ["A", "B"] ≤ 600 :=
  duration_bound_general ["A", "B", "C", "D"] 600 0
    (fun s => if s = "A" then 300 else if s = "B" then 200 else
      if s = "C" then 500 else 100) 0 (by norm_num) (by norm_num) ["A", "B"]
    (by simp [calculate_batches, calcLoop]; norm_num) (by decide)

/-- C8: for every non-empty input list, if `max_clip_count = k > 0` and
`standalone_threshold_sec = 0`, `calculate_batches` returns consecutive chunks
(their concatenation is the input) in which every batch except possibly the
last has exactly `k` members, and the last has between 1 and `k` members. -/
theorem fixed_chunking (video_files : List String) (max_duration_sec : ℚ)
    (cached_durations : String → ℚ) (k : Int) (hk : 0 < k)
    (hvf : video_files ≠ []) :
    (calculate_batches video_files max_duration_sec k cached_durations 0).flatten
      = video_files ∧
    (∀ B ∈ (calculate_batches video_files max_duration_sec k cached_durations
      0).dropLast, (B.length : Int) = k) ∧
    ∀ B, (calculate_batches video_files max_duration_sec k cached_durations
      0).getLast? = some B → 1 ≤ B.length ∧ (B.length : Int) ≤ k := by
  have hk1 : 1 ≤ k.toNat := by omega
  have heq : calculate_batches video_files max_duration_sec k cached_durations 0
      = chunkBy k.toNat video_files := by
    unfold calculate_batches calculate_batches_by_count
    rw [if_neg hvf, if_pos ⟨hk, le_rfl⟩, if_neg hvf, if_neg (not_le.mpr hk)]
  rw [heq]
  refine ⟨chunkGo_flatten _ hk1 _ _ le_rfl, ?_, ?_⟩
  · intro B hB
    have h := chunkGo_dropLast_length k.toNat hk1 _ _ le_rfl B hB
    omega
  · intro B hB
    have hBmem : B ∈ chunkBy k.toNat video_files := by
      obtain ⟨h, heq2⟩ := List.mem_getLast?_eq_getLast (Option.mem_def.mpr hB)
      rw [heq2]
      exact List.getLast_mem h
    have h := chunkGo_mem_length k.toNat hk1 _ _ le_rfl B hBmem
    omega

/-- Witness for C8 on the spec's scenario 9: five files with
`max_clip_count = 2` give chunks of sizes 2, 2, 1. -/
theorem fixed_chunking_witness :
    (calculate_batches ["1", "2", "3", "4", "5"] 0 2 (fun _ => 0) 0).flatten
      = ["1", "2", "3", "4", "5"] ∧
    (∀ B ∈ (calculate_batches ["1", "2", "3", "4", "5"] 0 2 (fun _ => 0)
      0).dropLast, (B.length : Int) = 2) ∧
    ∀ B, (calculate_batches ["1", "2", "3", "4", "5"] 0 2 (fun _ => 0)
      0).getLast? = some B → 1 ≤ B.length ∧ (B.length : Int) ≤ 2 :=
  fixed_chunking ["1", "2", "3", "4", "5"] 0 (fun _ => 0) 2 (by decide) (by decide)

/-! ## The merge pipeline (`RobustVideoMerger.merge_videos`) and its fallback -/

/-- The message of the exception raised at line 248 when `performance_level >= 2`
forbids the MoviePy fallback. -/
def disabledFallbackMsg : String :=
  "Internal fallback (MoviePy) disabled in Maximum Stability mode to save RAM."

/-- The combined message raised at line 254 when the fallback path also raised:
the Python f-string interpolating the primary error and the fallback error. -/
def combinedErrorMsg (e mp_e : String) : String :=
  "Merge failed on both engines.\nFFmpeg: " ++ e ++ "\nInternal: " ++ mp_e

/-- Outcome of the internal MoviePy fallback engine `_merge_with_moviepy`:
it returns `True` on success and otherwise raises with some message. -/
inductive FallbackOutcome
  | ok
  | err (msg : String)

/-- The `except Exception as e` handler of `merge_videos`
(video_merger_robust.py lines 243-254), given the primary pipeline's error
message `e`: at `performance_level >= 2` the inner `raise` at line 248 is
caught by the inner `except` at line 253, so the call raises the combined
message (with the fallback-disabled notice as the internal part) and never
invokes the fallback; otherwise the fallback runs, its success is returned,
and its failure message `m` is combined with `e`.  Returns the call's result
(`Except.error` = raises) paired with whether `_merge_with_moviepy` was
invoked. -/
def mergeVideosOnPrimaryError (e : String) (performance_level : Int)
    (fb : FallbackOutcome) : Except String Bool × Bool :=
  if 2 ≤ performance_level then
    (Except.error (combinedErrorMsg e disabledFallbackMsg), false)
  else
    match fb with
    | FallbackOutcome.ok => (Except.ok true, true)
    | FallbackOutcome.err m => (Except.error (combinedErrorMsg e m), true)

/-- Name of the temp artifact of block `block_num`, created at line 222:
`f"temp_block_\x7bblock_num\x7d_\x7bint(time.time())\x7d.mp4"`. -/
def tempName (block_num timestamp : ℕ) : String :=
  "temp_block_" ++ toString block_num ++ "_" ++ toString timestamp ++ ".mp4"

/-- Observable temp-artifact state of one `merge_videos` call: the names
appended to `temp_files` (line 223), the temp files actually written, and the
filesystem (as the set of existing paths) after the `finally` cleanup of
lines 255-260. -/
structure TempRun where
  registered : List String
  created : List String
  fsExit : Finset String

/-- Temp-artifact lifecycle of `merge_videos` on two or more files
(video_merger_robust.py lines 206-260).  The block loop registers block `b`'s
temp name in `temp_files` before invoking the block merge; `failAtBlock j`
models the `_ffmpeg_merge_block` call of block `j` (0-based) raising, in which
case later blocks are neither registered nor written, and `partialOutput`
says whether the failing invocation left a partial file behind.
`failAtBlock none` covers both the success path and a failure at the final
merge (which creates no temp); the fallback path creates no temps.  The
`finally` clause removes every registered name from the filesystem. -/
def mergeTempLifecycle (fs0 : Finset String) (files : List String)
    (blockSize : ℕ) (timeAt : ℕ → ℕ) (failAtBlock : Option ℕ)
    (partialOutput : Bool) : TempRun :=
  let totalBlocks := (chunkBy blockSize files).length
  let attempted := match failAtBlock with
    | none => totalBlocks
    | some j => min (j + 1) totalBlocks
  let completed := match failAtBlock with
    | none => totalBlocks
    | some j => min (if partialOutput then j + 1 else j) totalBlocks
  let registered := (List.range attempted).map (fun b => tempName (b + 1) (timeAt b))
  let created := (List.range completed).map (fun b => tempName (b + 1) (timeAt b))
  let fsMid := created.foldl (fun fs f => insert f fs) fs0
  let fsExit := registered.foldl (fun fs f => Finset.erase fs f) fsMid
  ⟨registered, created, fsExit⟩

/-- The sub-progress values `merge_videos` reports during the block stage
(line 226): before block `block_num` it reports
`int((block_num - 1) / total_blocks * 80)`. -/
def mergeProgressPrimary (files : List String) (blockSize : ℕ) : List ℕ :=
  let totalBlocks := (chunkBy blockSize files).length
  (List.range totalBlocks).map (fun b => 80 * b / totalBlocks)

/-- The sub-progress values `_merge_with_moviepy` reports on its success path
(lines 356-400): 10 on load, `10 + int(i / total_files * 60)` per file, then
80 (merging) and 90 (encoding); it returns without ever reporting 100. -/
def moviepyProgress (total_files : ℕ) : List ℕ :=
  10 :: ((List.range total_files).map (fun i => 10 + 60 * i / total_files) ++ [80, 90])

/-- Observable behaviour of one `merge_videos` call: the returned value
(`Except.error` = the call raises), the sub-progress percentages handed to the
progress callback in order, whether any external FFmpeg subprocess was
launched, whether `_merge_with_moviepy` was invoked, and the file contents
afterwards (a map from resolved absolute path to abstract content). -/
structure MergeObs where
  result : Except String Bool
  emissions : List ℕ
  invokedExternal : Bool
  fallbackInvoked : Bool
  fs : String → Option ℕ

/-- Point update of the content map at a resolved path. -/
def updateFs (fs : String → Option ℕ) (key : String) (v : Option ℕ) :
    String → Option ℕ :=
  fun p => if p = key then v else fs p

/-- Observable behaviour of `merge_videos` (video_merger_robust.py lines
179-260).  `resolve` models `os.path.abspath`; the content map `fs0` is keyed
by resolved path.  Branches, in source order: empty list returns `False` at
line 188 before doing anything; a single file reports 50 and is a no-op when
source and destination resolve to the same file (line 195), else `copy2`
copies the source contents and 100 is reported (`copy2` is modelled as
succeeding); with two or more files the block loop reports
`mergeProgressPrimary`, then 90 before the final merge.  `primaryError`
carries the message of a final-merge failure (`none` = the primary pipeline
succeeds and reports 100, writing the merged content `mergedContent`);
on failure the handler of lines 243-254 runs: at `perfLevel >= 2` the call
raises the combined error without invoking the fallback, otherwise it reports
0 and runs the fallback, whose success emits `moviepyProgress` and writes the
destination, and whose failure (modelled as failing on entry) raises the
combined error. -/
def mergeVideosObs (resolve : String → String) (fs0 : String → Option ℕ)
    (files : List String) (output_path : String) (blockSize : ℕ)
    (perfLevel : ℕ) (primaryError : Option String) (fb : FallbackOutcome)
    (mergedContent : ℕ) : MergeObs :=
  match files with
  | [] => ⟨Except.ok false, [], false, false, fs0⟩
  | [f] =>
      if resolve f = resolve output_path then
        ⟨Except.ok true, [50], false, false, fs0⟩
      else
        ⟨Except.ok true, [50, 100], false, false,
          updateFs fs0 (resolve output_path) (fs0 (resolve f))⟩
  | f1 :: f2 :: rest =>
      let primaryEmissions := mergeProgressPrimary (f1 :: f2 :: rest) blockSize ++ [90]
      match primaryError with
      | none =>
          ⟨Except.ok true, primaryEmissions ++ [100], true, false,
            updateFs fs0 (resolve output_path) (some mergedContent)⟩
      | some e =>
          if 2 ≤ perfLevel then
            ⟨Except.error (combinedErrorMsg e disabledFallbackMsg),
              primaryEmissions, true, false, fs0⟩
          else
            match fb with
            | FallbackOutcome.ok =>
                ⟨Except.ok true,
                  primaryEmissions ++ 0 :: moviepyProgress (f1 :: f2 :: rest).length,
                  true, true,
                  updateFs fs0 (resolve output_path) (some mergedContent)⟩
            | FallbackOutcome.err m =>
                ⟨Except.error (combinedErrorMsg e m),
                  primaryEmissions ++ [0], true, true, fs0⟩

/-! ## The worker's progress aggregation (`VideoMergerWorker.run`) -/

/-- worker_thread.py line 136: batch `index` of `total_batches` reporting
sub-progress `prog` maps to
`int(((index + (prog / 100)) / total_batches) * 100)` overall (exact-rational
reading of the float expression; all quantities are non-negative, so Python's
truncating `int` is the floor). -/
def overallProgress (index total_batches prog : ℕ) : ℕ :=
  ⌊(((index : ℚ) + (prog : ℚ) / 100) / (total_batches : ℚ)) * 100⌋₊

/-- The overall-progress values batch `index` contributes: its sub-progress
emissions mapped through the callback. -/
def workerBatchTrace (total_batches index : ℕ) (t : List ℕ) : List ℕ :=
  t.map (fun prog => overallProgress index total_batches prog)

/-- The per-batch loop of `VideoMergerWorker.run` (worker_thread.py lines
99-156): batch traces mapped and concatenated in order, `index` counting up
from 0. -/
def workerJobAux (total_batches : ℕ) : ℕ → List (List ℕ) → List ℕ
  | _, [] => []
  | index, t :: ts =>
      workerBatchTrace total_batches index t
        ++ workerJobAux total_batches (index + 1) ts

/-- Every overall progress percentage the worker emits across a job: the
initial `progress_updated.emit(0)` of line 66, then each batch's mapped
emissions in order. -/
def workerJobProgress (traces : List (List ℕ)) : List ℕ :=
  0 :: workerJobAux traces.length 0 traces

/-- The float expression of worker_thread.py line 136, read exactly, is the
integer division `(100 * index + prog) / total_batches`. -/
theorem overallProgress_eq_div (index total_batches prog : ℕ) :
    overallProgress index total_batches prog = (100 * index + prog) / total_batches := by
  unfold overallProgress
  rcases Nat.eq_zero_or_pos total_batches with h | h
  · subst h; simp
  · have hN : (total_batches : ℚ) ≠ 0 := by positivity
    have heq : ((index : ℚ) + (prog : ℚ) / 100) / (total_batches : ℚ) * 100
        = ((100 * index + prog : ℕ) : ℚ) / (total_batches : ℚ) := by
      push_cast
      field_simp
      ring
    rw [heq, Nat.floor_div_eq_div]

/-- Within one batch, the aggregated progress is monotone in the
sub-progress. -/
theorem overallProgress_mono_prog (index total_batches p q : ℕ) (h : p ≤ q) :
    overallProgress index total_batches p ≤ overallProgress index total_batches q := by
  rw [overallProgress_eq_div, overallProgress_eq_div]
  exact Nat.div_le_div_right (by omega)

/-- Any aggregated value of an earlier batch is at most any aggregated value
of a later batch, as long as sub-progress never exceeds 100. -/
theorem overallProgress_mono_batch (i j total_batches p q : ℕ) (hij : i < j)
    (hp : p ≤ 100) :
    overallProgress i total_batches p ≤ overallProgress j total_batches q := by
  rw [overallProgress_eq_div, overallProgress_eq_div]
  exact Nat.div_le_div_right (by omega)

/-- C6 as amended: for every job of `N ≥ 1` batches, the worker's per-batch
progress callback maps batch index `i` reporting sub-progress `p ∈ [0, 100]`
to `floor(((i + p/100)/N)*100)`; this value is at most 100 (and is a natural
number, hence at least 0) and equals 100 exactly when `i = N - 1` and
`p = 100`.  A job therefore ends at exactly 100 when its last batch ends by
reporting sub-progress 100 — which every primary-pipeline success on two or
more files does, and every single-file copy to a distinct destination does
(but a same-file single-file no-op, ending at 50, and a fallback success,
ending at 90, do not — see the counterexample). -/
theorem progress_aggregation (total_batches index prog : ℕ)
    (hN : 0 < total_batches) (hi : index < total_batches) (hp : prog ≤ 100) :
    overallProgress index total_batches prog ≤ 100 ∧
    (overallProgress index total_batches prog = 100 ↔
      index = total_batches - 1 ∧ prog = 100) ∧
    overallProgress (total_batches - 1) total_batches 100 = 100 ∧
    (∀ (resolve : String → String) (fs0 : String → Option ℕ)
      (files : List String) (output_path : String) (bs lvl mc : ℕ)
      (fb : FallbackOutcome), 2 ≤ files.length →
      (mergeVideosObs resolve fs0 files output_path bs lvl none fb
        mc).emissions.getLast? = some 100) ∧
    ∀ (resolve : String → String) (fs0 : String → Option ℕ)
      (f output_path : String) (bs lvl mc : ℕ) (fb : FallbackOutcome),
      resolve f ≠ resolve output_path →
      (mergeVideosObs resolve fs0 [f] output_path bs lvl none fb
        mc).emissions.getLast? = some 100 := by
  have h100 : overallProgress (total_batches - 1) total_batches 100 = 100 := by
    rw [overallProgress_eq_div]
    have he : 100 * (total_batches - 1) + 100 = 100 * total_batches := by omega
    rw [he]
    exact Nat.mul_div_cancel _ hN
  have hle : overallProgress index total_batches prog ≤ 100 := by
    rw [overallProgress_eq_div]
    calc (100 * index + prog) / total_batches
        ≤ 100 * total_batches / total_batches :=
          Nat.div_le_div_right (by omega)
      _ = 100 := Nat.mul_div_cancel _ hN
  refine ⟨hle, ⟨?_, ?_⟩, h100, ?_, ?_⟩
  · intro h
    have hge : 100 * total_batches ≤ 100 * index + prog := by
      rw [overallProgress_eq_div] at h
      exact (Nat.le_div_iff_mul_le hN).mp h.ge
    omega
  · rintro ⟨rfl, rfl⟩
    exact h100
  · intro resolve fs0 files output_path bs lvl mc fb h2
    rcases files with _ | ⟨f1, _ | ⟨f2, rest⟩⟩
    · simp at h2
    · simp at h2
    · simp only [mergeVideosObs]
      rw [List.getLast?_concat]
  · intro resolve fs0 f output_path bs lvl mc fb hne
    simp [mergeVideosObs, if_neg hne]

/-- Witness for C6 at `N = 2`, `i = 0`, `p = 50`, evaluating the last
emission on a concrete two-file success run. -/
theorem progress_aggregation_witness :
    overallProgress 0 2 50 ≤ 100 ∧
    (overallProgress 0 2 50 = 100 ↔ 0 = 2 - 1 ∧ 50 = 100) ∧
    overallProgress (2 - 1) 2 100 = 100 ∧
    (∀ (resolve : String → String) (fs0 : String → Option ℕ)
      (files : List String) (output_path : String) (bs lvl mc : ℕ)
      (fb : FallbackOutcome), 2 ≤ files.length →
      (mergeVideosObs resolve fs0 files output_path bs lvl none fb
        mc).emissions.getLast? = some 100) ∧
    ∀ (resolve : String → String) (fs0 : String → Option ℕ)
      (f output_path : String) (bs lvl mc : ℕ) (fb : FallbackOutcome),
      resolve f ≠ resolve output_path →
      (mergeVideosObs resolve fs0 [f] output_path bs lvl none fb
        mc).emissions.getLast? = some 100 :=
  progress_aggregation 2 0 50 (by decide) (by decide) (by decide)

/-- C6 counterexample (to the claim's final clause): a single-batch job whose
only file already resolves to the destination succeeds (`merge_videos`
returns `True` after the no-op fast-copy branch of lines 195-197), yet its
final emitted sub-progress is 50, so the job's overall progress ends at 50,
not 100. -/
theorem progress_ends_counterexample :
    (mergeVideosObs (fun _ => "p") (fun _ => none) ["a"] "out" 10 0 none
      FallbackOutcome.ok 0).result = Except.ok true ∧
    (workerJobProgress
      [(mergeVideosObs (fun _ => "p") (fun _ => none) ["a"] "out" 10 0 none
        FallbackOutcome.ok 0).emissions]).getLast? = some 50 := by
  constructor
  · rfl
  · have h : (mergeVideosObs (fun _ => "p") (fun _ => none) ["a"] "out" 10 0
        none FallbackOutcome.ok 0).emissions = [50] := by
      simp [mergeVideosObs]
    rw [h]
    have h2 : workerJobProgress [[50]] = [0, 50] := by
      simp [workerJobProgress, workerJobAux, workerBatchTrace,
        overallProgress_eq_div]
    rw [h2]
    rfl

/-- Mapping a monotone function over `List.range` gives a non-decreasing
sequence. -/
theorem chain'_le_map_range (f : ℕ → ℕ) (hf : ∀ m, f m ≤ f (m + 1)) (n : ℕ) :
    List.Chain' (· ≤ ·) ((List.range n).map f) := by
  rw [List.chain'_map, List.chain'_iff_get]
  intro i h
  simp only [List.get_eq_getElem, List.getElem_range]
  exact hf _

/-- The block-stage emissions are non-decreasing. -/
theorem mergeProgressPrimary_chain (files : List String) (blockSize : ℕ) :
    List.Chain' (· ≤ ·) (mergeProgressPrimary files blockSize) := by
  unfold mergeProgressPrimary
  exact chain'_le_map_range _
    (fun m => Nat.div_le_div_right (Nat.mul_le_mul_left 80 (Nat.le_succ m))) _

/-- Every block-stage emission is at most 80. -/
theorem mergeProgressPrimary_le (files : List String) (blockSize : ℕ) :
    ∀ p ∈ mergeProgressPrimary files blockSize, p ≤ 80 := by
  unfold mergeProgressPrimary
  intro p hp
  obtain ⟨b, hb, rfl⟩ := List.mem_map.mp hp
  rw [List.mem_range] at hb
  have hpos : 0 < (chunkBy blockSize files).length := by omega
  calc 80 * b / (chunkBy blockSize files).length
      ≤ 80 * (chunkBy blockSize files).length / (chunkBy blockSize files).length :=
        Nat.div_le_div_right (Nat.mul_le_mul_left 80 hb.le)
    _ = 80 := Nat.mul_div_cancel _ hpos

/-- The emission trace of a `merge_videos` call whose primary pipeline
succeeds is non-decreasing and stays within [0, 100]. -/
theorem successEmissions_chain (resolve : String → String)
    (fs0 : String → Option ℕ) (files : List String) (output_path : String)
    (bs lvl mc : ℕ) (fb : FallbackOutcome) :
    List.Chain' (· ≤ ·)
      ((mergeVideosObs resolve fs0 files output_path bs lvl none fb mc).emissions) ∧
    ∀ p ∈ (mergeVideosObs resolve fs0 files output_path bs lvl none fb
      mc).emissions, p ≤ 100 := by
  rcases files with _ | ⟨f1, _ | ⟨f2, rest⟩⟩
  · simp [mergeVideosObs]
  · by_cases h : resolve f1 = resolve output_path <;>
      simp [mergeVideosObs, h, List.chain'_cons]
  · constructor
    · show List.Chain' (· ≤ ·)
        ((mergeProgressPrimary (f1 :: f2 :: rest) bs ++ [90]) ++ [100])
      rw [List.chain'_append, List.chain'_append]
      refine ⟨⟨mergeProgressPrimary_chain _ _, by simp, ?_⟩, by simp, ?_⟩
      · intro x hx y hy
        simp only [List.head?_cons, Option.mem_some_iff] at hy
        subst hy
        have hx' : x ∈ mergeProgressPrimary (f1 :: f2 :: rest) bs := by
          obtain ⟨h, heq⟩ := List.mem_getLast?_eq_getLast hx
          rw [heq]
          exact List.getLast_mem h
        exact (mergeProgressPrimary_le _ _ x hx').trans (by omega)
      · intro x hx y hy
        simp only [List.getLast?_concat, Option.mem_some_iff] at hx
        simp only [List.head?_cons, Option.mem_some_iff] at hy
        omega
    · intro p hp
      have hp' : p ∈ (mergeProgressPrimary (f1 :: f2 :: rest) bs ++ [90]) ++ [100] := hp
      simp only [List.mem_append, List.mem_singleton] at hp'
      rcases hp' with (hp' | rfl) | rfl
      · exact (mergeProgressPrimary_le _ _ p hp').trans (by omega)
      · omega
      · omega

/-- Every value of `workerJobAux` is an `overallProgress` of a batch index at
least the starting index, with a sub-progress drawn from its trace. -/
theorem workerJobAux_mem (total_batches : ℕ) :
    ∀ (traces : List (List ℕ)) (i : ℕ) (v : ℕ),
      v ∈ workerJobAux total_batches i traces →
      ∃ j q, i ≤ j ∧ (∃ t ∈ traces, q ∈ t) ∧
        v = overallProgress j total_batches q := by
  intro traces
  induction traces with
  | nil => intro i v hv; simp [workerJobAux] at hv
  | cons t ts ih =>
      intro i v hv
      simp only [workerJobAux, List.mem_append] at hv
      rcases hv with hv | hv
      · obtain ⟨q, hq, rfl⟩ := List.mem_map.mp hv
        exact ⟨i, q, le_rfl, ⟨t, List.mem_cons_self _ _, hq⟩, rfl⟩
      · obtain ⟨j, q, hij, ⟨u, hu, hq⟩, rfl⟩ := ih (i + 1) v hv
        exact ⟨j, q, by omega, ⟨u, List.mem_cons_of_mem _ hu, hq⟩, rfl⟩

/-- If every batch trace is non-decreasing and bounded by 100, the
concatenated mapped traces are non-decreasing. -/
theorem workerJobAux_chain (total_batches : ℕ) :
    ∀ (traces : List (List ℕ)) (i : ℕ),
      (∀ t ∈ traces, List.Chain' (· ≤ ·) t ∧ ∀ p ∈ t, p ≤ 100) →
      List.Chain' (· ≤ ·) (workerJobAux total_batches i traces) := by
  intro traces
  induction traces with
  | nil => intro i h; simp [workerJobAux]
  | cons t ts ih =>
      intro i h
      simp only [workerJobAux]
      rw [List.chain'_append]
      refine ⟨?_, ih (i + 1) (fun u hu => h u (List.mem_cons_of_mem _ hu)), ?_⟩
      · unfold workerBatchTrace
        rw [List.chain'_map]
        exact ((h t (List.mem_cons_self _ _)).1).imp
          (fun a b hab => overallProgress_mono_prog i total_batches a b hab)
      · intro x hx y hy
        have hx' : x ∈ workerBatchTrace total_batches i t := by
          obtain ⟨hne, heq⟩ := List.mem_getLast?_eq_getLast hx
          rw [heq]
          exact List.getLast_mem hne
        obtain ⟨p, hp, rfl⟩ := List.mem_map.mp hx'
        have hy' := List.mem_of_mem_head? hy
        obtain ⟨j, q, hij, -, rfl⟩ := workerJobAux_mem total_batches ts (i + 1) y hy'
        exact overallProgress_mono_batch i j total_batches p q (by omega)
          ((h t (List.mem_cons_self _ _)).2 p hp)

/-- C7 counterexample: a single-batch job of two files whose primary pipeline
fails at the final merge and whose fallback succeeds emits the overall
sequence [0, 0, 90, 0, 10, 10, 40, 80, 90] — the `progress_callback(0, ...)`
of line 251 follows the 90 of line 234, so the sequence decreases. -/
theorem worker_monotonicity_counterexample :
    ¬ List.Chain' (· ≤ ·)
      (workerJobProgress
        [(mergeVideosObs (fun s => s) (fun _ => none) ["a", "b"] "out" 10 0
          (some "boom") FallbackOutcome.ok 0).emissions]) := by
  have h : (mergeVideosObs (fun s => s) (fun _ => none) ["a", "b"] "out" 10 0
      (some "boom") FallbackOutcome.ok 0).emissions
      = [0, 90, 0, 10, 10, 40, 80, 90] := by
    simp [mergeVideosObs, mergeProgressPrimary, moviepyProgress, chunkBy, chunkGo]
    decide
  rw [h]
  have h2 : workerJobProgress [[0, 90, 0, 10, 10, 40, 80, 90]]
      = [0, 0, 90, 0, 10, 10, 40, 80, 90] := by
    simp [workerJobProgress, workerJobAux, workerBatchTrace, overallProgress_eq_div]
  rw [h2]
  simp [List.chain'_cons]

/-- C7 as amended: across every job in which each batch's PRIMARY pipeline
succeeds (no batch enters the fallback path), the sequence of overall
progress percentages emitted by the worker is monotonically non-decreasing.
(The counterexample shows the claim fails as soon as a fallback is attempted:
the handler restarts that batch's sub-progress at 0 after up to 90 was already
reported.) -/
theorem worker_monotonicity_primary_success (traces : List (List ℕ))
    (h : ∀ t ∈ traces, ∃ (resolve : String → String) (fs0 : String → Option ℕ)
      (files : List String) (output_path : String) (bs lvl mc : ℕ)
      (fb : FallbackOutcome),
      t = (mergeVideosObs resolve fs0 files output_path bs lvl none fb
        mc).emissions) :
    List.Chain' (· ≤ ·) (workerJobProgress traces) := by
  unfold workerJobProgress
  rw [List.chain'_cons']
  refine ⟨fun y _ => Nat.zero_le y, workerJobAux_chain _ _ _ ?_⟩
  intro t ht
  obtain ⟨resolve, fs0, files, output_path, bs, lvl, mc, fb, rfl⟩ := h t ht
  exact successEmissions_chain resolve fs0 files output_path bs lvl mc fb

/-- Witness for the amended C7: a two-batch job, a two-file success batch
followed by a single-file fast-copy batch. -/
theorem worker_monotonicity_primary_success_witness :
    List.Chain' (· ≤ ·)
      (workerJobProgress
        [(mergeVideosObs (fun s => s) (fun _ => none) ["a", "b"] "out" 10 0
            none FallbackOutcome.ok 0).emissions,
         (mergeVideosObs (fun s => s) (fun _ => none) ["c"] "out2" 10 0
            none FallbackOutcome.ok 0).emissions]) := by
  apply worker_monotonicity_primary_success
  intro t ht
  simp only [List.mem_cons, List.not_mem_nil, or_false] at ht
  rcases ht with rfl | rfl
  · exact ⟨fun s => s, fun _ => none, ["a", "b"], "out", 10, 0, 0,
      FallbackOutcome.ok, rfl⟩
  · exact ⟨fun s => s, fun _ => none, ["c"], "out2", 10, 0, 0,
      FallbackOutcome.ok, rfl⟩

/-- C4 counterexample: at `performance_level = 2` the fallback engine is
indeed not invoked, but the call does NOT re-raise the original error `E`
itself: the inner `raise` of line 248 is caught by the inner
`except Exception as mp_e` of line 253, so the call raises the combined
"Merge failed on both engines" message instead of `E`. -/
theorem level2_reraise_counterexample :
    (mergeVideosOnPrimaryError "boom" 2 FallbackOutcome.ok).2 = false ∧
    (mergeVideosOnPrimaryError "boom" 2 FallbackOutcome.ok).1
      ≠ Except.error "boom" ∧
    (mergeVideosOnPrimaryError "boom" 2 FallbackOutcome.ok).1
      = Except.error (combinedErrorMsg "boom" disabledFallbackMsg) := by
  refine ⟨rfl, ?_, rfl⟩
  intro h
  simp only [mergeVideosOnPrimaryError, combinedErrorMsg, disabledFallbackMsg,
    if_pos (by decide : (2 : Int) ≤ 2), Except.error.injEq] at h
  exact absurd h (by decide)

/-- C4 as amended: when the primary pipeline fails with error `E` and
`performance_level >= 2`, `merge_videos` does not invoke the internal
fallback engine, and raises the combined error whose message interpolates
`E` and the fallback-disabled notice (rather than re-raising `E` itself). -/
theorem level2_no_fallback (e : String) (performance_level : Int)
    (fb : FallbackOutcome) (h : 2 ≤ performance_level) :
    mergeVideosOnPrimaryError e performance_level fb
      = (Except.error (combinedErrorMsg e disabledFallbackMsg), false) := by
  unfold mergeVideosOnPrimaryError
  rw [if_pos h]

/-- Witness for the amended C4 at a concrete error and level. -/
theorem level2_no_fallback_witness :
    mergeVideosOnPrimaryError "boom" 2 FallbackOutcome.ok
      = (Except.error (combinedErrorMsg "boom" disabledFallbackMsg), false) :=
  level2_no_fallback "boom" 2 FallbackOutcome.ok (by decide)

/-- Membership after folding `Finset.erase` over a list: an element survives
iff it was present and is not in the erased list. -/
theorem mem_foldl_erase (l : List String) :
    ∀ (fs : Finset String) (x : String),
      (x ∈ l.foldl (fun fs f => Finset.erase fs f) fs) ↔ (x ∈ fs ∧ x ∉ l) := by
  induction l with
  | nil => intro fs x; simp
  | cons a t ih =>
      intro fs x
      simp only [List.foldl_cons, ih, Finset.mem_erase, List.mem_cons]
      constructor
      · rintro ⟨⟨hxa, hfs⟩, ht⟩
        exact ⟨hfs, by tauto⟩
      · rintro ⟨hfs, hnot⟩
        exact ⟨⟨fun h => hnot (Or.inl h), hfs⟩, fun h => hnot (Or.inr h)⟩

/-- C5: for every call of `merge_videos` on two or more files, every
temporary block artifact created during the call is deleted before the call
returns or raises, on every exit path — success, failure at any block with
or without a partial file, primary failure with fallback, or combined
failure: the `finally` clause removes every registered temp name, and every
created temp was registered before its block merge ran. -/
theorem temp_cleanup (fs0 : Finset String) (files : List String)
    (blockSize : ℕ) (timeAt : ℕ → ℕ) (failAtBlock : Option ℕ)
    (partialOutput : Bool) (_h2 : 2 ≤ files.length) :
    ∀ f ∈ (mergeTempLifecycle fs0 files blockSize timeAt failAtBlock
      partialOutput).created,
      f ∉ (mergeTempLifecycle fs0 files blockSize timeAt failAtBlock
        partialOutput).fsExit := by
  intro f hf hmem
  simp only [mergeTempLifecycle] at hf hmem
  rw [mem_foldl_erase] at hmem
  apply hmem.2
  rcases failAtBlock with _ | j
  · exact hf
  · obtain ⟨b, hb, rfl⟩ := List.mem_map.mp hf
    rw [List.mem_range] at hb
    refine List.mem_map.mpr ⟨b, List.mem_range.mpr ?_, rfl⟩
    have hb' : b < (if partialOutput then j + 1 else j)
        ⊓ (chunkBy blockSize files).length := hb
    show b < (j + 1) ⊓ (chunkBy blockSize files).length
    rcases partialOutput <;> simp at hb' <;> omega

/-- Witness for C5: a three-file run with block size 2 failing at block 1
with a partial file left behind; the partial temp of the failing block is
gone at exit. -/
theorem temp_cleanup_witness :
    2 ≤ (["a", "b", "c"] : List String).length ∧
    ∀ f ∈ (mergeTempLifecycle ∅ ["a", "b", "c"] 2 (fun _ => 7) (some 1)
      true).created,
      f ∉ (mergeTempLifecycle ∅ ["a", "b", "c"] 2 (fun _ => 7) (some 1)
        true).fsExit :=
  ⟨by decide, temp_cleanup ∅ ["a", "b", "c"] 2 (fun _ => 7) (some 1) true
    (by decide)⟩

/-- C9: for every call of `merge_videos` with exactly one input file: if the
source and destination resolve to different files, the destination's content
after the call equals the source's content and the call returns success; if
they resolve to the same file, the call returns success without touching the
filesystem (or launching anything). -/
theorem single_file_fast_copy (resolve : String → String)
    (fs0 : String → Option ℕ) (f output_path : String)
    (blockSize perfLevel mc : ℕ) (primaryError : Option String)
    (fb : FallbackOutcome) :
    (resolve f ≠ resolve output_path →
      (mergeVideosObs resolve fs0 [f] output_path blockSize perfLevel
        primaryError fb mc).result = Except.ok true ∧
      (mergeVideosObs resolve fs0 [f] output_path blockSize perfLevel
        primaryError fb mc).fs (resolve output_path) = fs0 (resolve f)) ∧
    (resolve f = resolve output_path →
      mergeVideosObs resolve fs0 [f] output_path blockSize perfLevel
        primaryError fb mc
        = ⟨Except.ok true, [50], false, false, fs0⟩) := by
  constructor
  · intro h
    simp [mergeVideosObs, if_neg h, updateFs]
  · intro h
    simp [mergeVideosObs, if_pos h]

/-- Witness for C9: copying "a" to a distinct "b" transfers the content. -/
theorem single_file_fast_copy_witness :
    (mergeVideosObs (fun s => s) (fun _ => some 7) ["a"] "b" 10 0 none
      FallbackOutcome.ok 0).result = Except.ok true ∧
    (mergeVideosObs (fun s => s) (fun _ => some 7) ["a"] "b" 10 0 none
      FallbackOutcome.ok 0).fs "b" = some 7 :=
  (single_file_fast_copy (fun s => s) (fun _ => some 7) "a" "b" 10 0 0 none
    FallbackOutcome.ok).1 (by decide)

/-- C10: for the empty input list, `merge_videos` returns `False`
immediately: it raises no error, invokes no external tool, attempts no
fallback, emits no progress event, and creates or modifies no file
(line 188). -/
theorem empty_input_noop (resolve : String → String) (fs0 : String → Option ℕ)
    (output_path : String) (blockSize perfLevel mc : ℕ)
    (primaryError : Option String) (fb : FallbackOutcome) :
    mergeVideosObs resolve fs0 [] output_path blockSize perfLevel primaryError
      fb mc = ⟨Except.ok false, [], false, false, fs0⟩ := rfl

end VideoMergerPro
